import Mathlib

/-!
Verification of the `mpl-richtext` property-resolution and layout code
(`src/mpl_richtext/core.py`) against its specification.

The Python code is shallowly embedded: Python values that flow through the
property resolver are modelled by the inductive type `PyVal`; Python dicts
(insertion-ordered, assignment replaces in place) are modelled by association
lists with the update function `dictSet`; functions that can raise are modelled
with `Except`/`Option`; the host canvas is modelled as an explicit state value
that the embedded functions thread through.
-/

set_option maxHeartbeats 1600000

namespace MplRichtext

/-- A Python value, as used by the property-resolution engine in `core.py`.
Only the shapes the resolver inspects are distinguished: `None`, strings,
ints, lists, tuples and dicts (a dict is an insertion-ordered association
list, as in CPython). -/
inductive PyVal : Type where
  | none : PyVal
  | str : String → PyVal
  | int : Int → PyVal
  | list : List PyVal → PyVal
  | tuple : List PyVal → PyVal
  | dict : List (PyVal × PyVal) → PyVal
deriving Repr

mutual

/-- Boolean structural equality on `PyVal` (Python `==` for the key/value
shapes the resolver uses: `None`, str, int, and (nested) tuples/lists/dicts
of those). -/
def PyVal.beq : PyVal → PyVal → Bool
  | PyVal.none, PyVal.none => true
  | PyVal.str a, PyVal.str b => a == b
  | PyVal.int a, PyVal.int b => a == b
  | PyVal.list xs, PyVal.list ys => beqL xs ys
  | PyVal.tuple xs, PyVal.tuple ys => beqL xs ys
  | PyVal.dict xs, PyVal.dict ys => beqP xs ys
  | _, _ => false

/-- `PyVal.beq` lifted to lists of values. -/
def PyVal.beqL : List PyVal → List PyVal → Bool
  | [], [] => true
  | a :: as, b :: bs => PyVal.beq a b && PyVal.beqL as bs
  | _, _ => false

/-- `PyVal.beq` lifted to lists of pairs. -/
def PyVal.beqP : List (PyVal × PyVal) → List (PyVal × PyVal) → Bool
  | [], [] => true
  | (k, v) :: as, (k2, v2) :: bs =>
      PyVal.beq k k2 && PyVal.beq v v2 && PyVal.beqP as bs
  | _, _ => false

end

mutual

theorem PyVal.beq_iff : ∀ a b : PyVal, PyVal.beq a b = true ↔ a = b
  | PyVal.none, PyVal.none => by simp [PyVal.beq]
  | PyVal.str a, PyVal.str b => by simp [PyVal.beq]
  | PyVal.int a, PyVal.int b => by simp [PyVal.beq]
  | PyVal.list xs, PyVal.list ys => by
      simp only [PyVal.beq, PyVal.beqL_iff xs ys]
      constructor
      · intro h; rw [h]
      · intro h; injection h
  | PyVal.tuple xs, PyVal.tuple ys => by
      simp only [PyVal.beq, PyVal.beqL_iff xs ys]
      constructor
      · intro h; rw [h]
      · intro h; injection h
  | PyVal.dict xs, PyVal.dict ys => by
      simp only [PyVal.beq, PyVal.beqP_iff xs ys]
      constructor
      · intro h; rw [h]
      · intro h; injection h
  | PyVal.none, PyVal.str _ => by simp [PyVal.beq]
  | PyVal.none, PyVal.int _ => by simp [PyVal.beq]
  | PyVal.none, PyVal.list _ => by simp [PyVal.beq]
  | PyVal.none, PyVal.tuple _ => by simp [PyVal.beq]
  | PyVal.none, PyVal.dict _ => by simp [PyVal.beq]
  | PyVal.str _, PyVal.none => by simp [PyVal.beq]
  | PyVal.str _, PyVal.int _ => by simp [PyVal.beq]
  | PyVal.str _, PyVal.list _ => by simp [PyVal.beq]
  | PyVal.str _, PyVal.tuple _ => by simp [PyVal.beq]
  | PyVal.str _, PyVal.dict _ => by simp [PyVal.beq]
  | PyVal.int _, PyVal.none => by simp [PyVal.beq]
  | PyVal.int _, PyVal.str _ => by simp [PyVal.beq]
  | PyVal.int _, PyVal.list _ => by simp [PyVal.beq]
  | PyVal.int _, PyVal.tuple _ => by simp [PyVal.beq]
  | PyVal.int _, PyVal.dict _ => by simp [PyVal.beq]
  | PyVal.list _, PyVal.none => by simp [PyVal.beq]
  | PyVal.list _, PyVal.str _ => by simp [PyVal.beq]
  | PyVal.list _, PyVal.int _ => by simp [PyVal.beq]
  | PyVal.list _, PyVal.tuple _ => by simp [PyVal.beq]
  | PyVal.list _, PyVal.dict _ => by simp [PyVal.beq]
  | PyVal.tuple _, PyVal.none => by simp [PyVal.beq]
  | PyVal.tuple _, PyVal.str _ => by simp [PyVal.beq]
  | PyVal.tuple _, PyVal.int _ => by simp [PyVal.beq]
  | PyVal.tuple _, PyVal.list _ => by simp [PyVal.beq]
  | PyVal.tuple _, PyVal.dict _ => by simp [PyVal.beq]
  | PyVal.dict _, PyVal.none => by simp [PyVal.beq]
  | PyVal.dict _, PyVal.str _ => by simp [PyVal.beq]
  | PyVal.dict _, PyVal.int _ => by simp [PyVal.beq]
  | PyVal.dict _, PyVal.list _ => by simp [PyVal.beq]
  | PyVal.dict _, PyVal.tuple _ => by simp [PyVal.beq]

theorem PyVal.beqL_iff : ∀ xs ys : List PyVal, PyVal.beqL xs ys = true ↔ xs = ys
  | [], [] => by simp [PyVal.beqL]
  | a :: as, b :: bs => by
      simp only [PyVal.beqL, Bool.and_eq_true, PyVal.beq_iff a b, PyVal.beqL_iff as bs]
      simp
  | [], _ :: _ => by simp [PyVal.beqL]
  | _ :: _, [] => by simp [PyVal.beqL]

theorem PyVal.beqP_iff : ∀ xs ys : List (PyVal × PyVal),
    PyVal.beqP xs ys = true ↔ xs = ys
  | [], [] => by simp [PyVal.beqP]
  | (k, v) :: as, (k2, v2) :: bs => by
      simp only [PyVal.beqP, Bool.and_eq_true, PyVal.beq_iff k k2, PyVal.beq_iff v v2,
        PyVal.beqP_iff as bs]
      simp [Prod.ext_iff]
  | [], _ :: _ => by simp [PyVal.beqP]
  | _ :: _, [] => by simp [PyVal.beqP]

end

instance : DecidableEq PyVal := fun a b =>
  match h : PyVal.beq a b with
  | true => Decidable.isTrue ((PyVal.beq_iff a b).mp h)
  | false => Decidable.isFalse (fun he => by
      rw [← PyVal.beq_iff a b] at he
      rw [h] at he
      exact Bool.false_ne_true he)

/-- Python dict assignment `d[k] = v`: if the key is present its value is
replaced in place (insertion order kept), otherwise the pair is appended. -/
def dictSet {α β : Type} [DecidableEq α] (d : List (α × β)) (k : α) (v : β) :
    List (α × β) :=
  match d with
  | [] => [(k, v)]
  | (k0, v0) :: rest =>
      if k0 = k then (k0, v) :: rest else (k0, v0) :: dictSet rest k v

/-- Python dict read: `d[k]` / `k in d`, returning the value of the first
(and, for dicts built with `dictSet`, only) entry with key `k`. -/
def dget {α β : Type} [DecidableEq α] (d : List (α × β)) (k : α) : Option β :=
  match d with
  | [] => Option.none
  | (k0, v0) :: rest => if k0 = k then some v0 else dget rest k

/-- Python `d.update(m)`: assign every entry of `m` into `d`, in order. -/
def dictUpdate {α β : Type} [DecidableEq α] (d m : List (α × β)) :
    List (α × β) :=
  m.foldl (fun acc kv => dictSet acc kv.1 kv.2) d

/-- `isinstance(v, int)` for the embedded values. -/
def pyIsInt : PyVal → Bool
  | PyVal.int _ => true
  | _ => false

mutual

/-- Whether a Python value is hashable, i.e. usable as a dict key:
`None`, strings and ints are; lists and dicts are not; a tuple is hashable
exactly when all of its elements are. -/
def pyHashable : PyVal → Bool
  | PyVal.none => true
  | PyVal.str _ => true
  | PyVal.int _ => true
  | PyVal.tuple xs => pyHashableL xs
  | PyVal.list _ => false
  | PyVal.dict _ => false

/-- `pyHashable` for every element of a list. -/
def pyHashableL : List PyVal → Bool
  | [] => true
  | x :: xs => pyHashable x && pyHashableL xs

end

/-- Python dict assignment `flat_d[k] = v` with the hashability check CPython
performs: an unhashable key raises `TypeError`. -/
def dictSetH (d : List (PyVal × PyVal)) (k v : PyVal) :
    Except String (List (PyVal × PyVal)) :=
  if pyHashable k = true then Except.ok (dictSet d k v)
  else Except.error "TypeError: unhashable type"

/-- `core.py` lines 167-175, helper `extend_list` inside
`_normalize_properties`: extend a list to the target length by repeating its
last element; an empty list becomes `[None] * target_len`; a list that is too
long is truncated (`lst[:target_len]`). -/
def extend_list (lst : List PyVal) (target_len : Nat) : List PyVal :=
  if lst = [] then List.replicate target_len PyVal.none
  else if target_len ≤ lst.length then lst.take target_len
  else lst ++ List.replicate (target_len - lst.length) (lst.getLast?.getD PyVal.none)

/-- `core.py` lines 181-188 (dict case of `parse_mapping`): one dict entry is
flattened into `flat_d`; a tuple key assigns its value to every index in the
tuple, any other key is assigned directly.  Keys taken from a CPython dict
are necessarily hashable (and a hashable tuple has only hashable elements),
so unlike the list-of-pairs branch these assignments cannot raise
`TypeError`. -/
def flattenEntry (d : List (PyVal × PyVal)) (k v : PyVal) :
    List (PyVal × PyVal) :=
  match k with
  | PyVal.tuple xs => xs.foldl (fun acc x => dictSet acc x v) d
  | _ => dictSet d k v

/-- `core.py` lines 196, key test on the first pair of a list-of-pairs:
`isinstance(k, int) or (isinstance(k, (list, tuple)) and all ints)`. -/
def keyOk : PyVal → Bool
  | PyVal.int _ => true
  | PyVal.list xs => xs.all pyIsInt
  | PyVal.tuple xs => xs.all pyIsInt
  | _ => false

/-- `core.py` line 194: `isinstance(first, (list, tuple)) and len(first) == 2`
combined with the key test on `first[0]`. -/
def pairOk : PyVal → Bool
  | PyVal.list [k, _] => keyOk k
  | PyVal.tuple [k, _] => keyOk k
  | _ => false

/-- `core.py` lines 202-203: `for idx in k: flat_d[idx] = v` for a list or
tuple key of a list-of-pairs item: each assignment raises `TypeError` when
the element is unhashable, aborting the loop there. -/
def setAll (xs : List PyVal) (v : PyVal) (d : List (PyVal × PyVal)) :
    Except String (List (PyVal × PyVal)) :=
  match xs with
  | [] => Except.ok d
  | x :: rest =>
      match dictSetH d x v with
      | Except.error e => Except.error e
      | Except.ok d2 => setAll rest v d2

/-- `core.py` lines 200-205: a list-of-pairs item key; list or tuple keys are
expanded index by index, any other key is assigned directly.  Only the FIRST
pair's key was type-checked (line 196), so an unhashable key here raises
`TypeError` (line 203 for an unhashable element of a list/tuple key, line
205 for an unhashable plain key). -/
def flattenItemKey (d : List (PyVal × PyVal)) (k v : PyVal) :
    Except String (List (PyVal × PyVal)) :=
  match k with
  | PyVal.list xs => setAll xs v d
  | PyVal.tuple xs => setAll xs v d
  | _ => dictSetH d k v

/-- `core.py` lines 197-206: fold over all items of a list-of-pairs, in
order; an item that is not a 2-element list/tuple aborts with `None`
(`Except.ok Option.none`), and an unhashable key in an earlier well-shaped
item raises `TypeError` (`Except.error`) before any later item is looked
at. -/
def parseItems (items : List PyVal) (acc : List (PyVal × PyVal)) :
    Except String (Option (List (PyVal × PyVal))) :=
  match items with
  | [] => Except.ok (some acc)
  | item :: rest =>
      match item with
      | PyVal.list [k, v] =>
          match flattenItemKey acc k v with
          | Except.error e => Except.error e
          | Except.ok acc2 => parseItems rest acc2
      | PyVal.tuple [k, v] =>
          match flattenItemKey acc k v with
          | Except.error e => Except.error e
          | Except.ok acc2 => parseItems rest acc2
      | _ => Except.ok Option.none

/-- `core.py` lines 177-208, helper `parse_mapping` inside
`_normalize_properties`: parse an index mapping from a dict (tuple keys
expanded) or a list of `(indices, value)` pairs; anything else yields `None`
(`Except.ok Option.none`).  On the list-of-pairs branch the source
type-checks only the first pair's key (line 196), so a later unhashable
key raises `TypeError` mid-parse, modelled by `Except.error`. -/
def parse_mapping (val : PyVal) : Except String (Option (List (PyVal × PyVal))) :=
  match val with
  | PyVal.dict entries =>
      Except.ok (some (entries.foldl (fun acc kv => flattenEntry acc kv.1 kv.2) []))
  | PyVal.list [] => Except.ok Option.none
  | PyVal.list (first :: rest) =>
      if pairOk first then parseItems (first :: rest) [] else Except.ok Option.none
  | _ => Except.ok Option.none

/-- The flattened mapping parsed from `val` when parsing succeeds with a
mapping, and the empty dict otherwise; used to state lookups into parsed
mappings. -/
def parsedFlat (val : PyVal) : List (PyVal × PyVal) :=
  ((parse_mapping val).toOption.join).getD []

/-- `core.py` lines 230-239: the plural-to-singular key map. -/
def plural_map : List (String × String) :=
  [("fontsizes", "fontsize"), ("fontweights", "fontweight"),
   ("fontfamilies", "fontfamily"), ("fontstyles", "fontstyle"),
   ("alphas", "alpha"), ("backgroundcolors", "backgroundcolor"),
   ("colors", "color"), ("underlines", "underline")]

/-- The three kwarg buckets built by `core.py` lines 224-262. -/
structure KwSplit : Type where
  list_kwargs : List (String × List PyVal)
  mapping_kwargs : List (String × List (PyVal × PyVal))
  scalar_kwargs : List (String × PyVal)
deriving Repr

/-- `core.py` lines 242-262: classify one keyword argument.  A plural key is
folded onto its singular form (mapping merged by `dict.update`, list stored as
the singular list, anything else dropped); otherwise a mapping value goes to
`mapping_kwargs`, a list to `list_kwargs` (extended to length `n`) and
everything else to `scalar_kwargs`.  A `TypeError` raised by
`parse_mapping` (lines 246/256) propagates. -/
def splitStep (n : Nat) (st : KwSplit) (kv : String × PyVal) :
    Except String KwSplit :=
  match dget plural_map kv.1 with
  | some singular_k =>
      match parse_mapping kv.2 with
      | Except.error e => Except.error e
      | Except.ok (some m) =>
          let existing := (dget st.mapping_kwargs singular_k).getD []
          let mk := dictSet st.mapping_kwargs singular_k (dictUpdate existing m)
          Except.ok { st with mapping_kwargs := mk }
      | Except.ok Option.none =>
          match kv.2 with
          | PyVal.list l =>
              let lk := dictSet st.list_kwargs singular_k (extend_list l n)
              Except.ok { st with list_kwargs := lk }
          | _ => Except.ok st
  | Option.none =>
      match parse_mapping kv.2 with
      | Except.error e => Except.error e
      | Except.ok (some m) =>
          Except.ok { st with mapping_kwargs := dictSet st.mapping_kwargs kv.1 m }
      | Except.ok Option.none =>
          match kv.2 with
          | PyVal.list l =>
              let lk := dictSet st.list_kwargs kv.1 (extend_list l n)
              Except.ok { st with list_kwargs := lk }
          | _ =>
              let sk := dictSet st.scalar_kwargs kv.1 kv.2
              Except.ok { st with scalar_kwargs := sk }

/-- The kwargs loop of `core.py` lines 242-262, item by item in order; the
first `TypeError` raised while parsing a value aborts the loop and
propagates. -/
def splitKwargs (n : Nat) : List (String × PyVal) → KwSplit → Except String KwSplit
  | [], st => Except.ok st
  | kv :: rest, st =>
      match splitStep n st kv with
      | Except.error e => Except.error e
      | Except.ok st2 => splitKwargs n rest st2

/-- `core.py` lines 264-284: assemble the property dict of segment `i`:
scalar kwargs first, then per-index list values, then the `colors` list entry
(skipped when `None`), then the `colors` mapping entry (when the mapping is
truthy and holds `i`), then every per-property index mapping that holds `i`. -/
def buildProps (st : KwSplit) (color_mapping : Option (List (PyVal × PyVal)))
    (color_list : List PyVal) (i : Nat) : List (String × PyVal) :=
  let props := st.scalar_kwargs
  let props := st.list_kwargs.foldl
    (fun acc kv => dictSet acc kv.1 (kv.2.getD i PyVal.none)) props
  let props :=
    if color_list.getD i PyVal.none = PyVal.none then props
    else dictSet props "color" (color_list.getD i PyVal.none)
  let props :=
    match color_mapping with
    | some m =>
        if m = [] then props
        else
          match dget m (PyVal.int i) with
          | some c => dictSet props "color" c
          | Option.none => props
    | Option.none => props
  st.mapping_kwargs.foldl
    (fun acc kv =>
      match dget kv.2 (PyVal.int i) with
      | some v => dictSet acc kv.1 v
      | Option.none => acc) props

/-- `core.py` lines 150-286, `_normalize_properties`: normalize `colors` and
the keyword arguments into one property dict per string segment.  Raising is
modelled by `Except.error`: the `ValueError` for a `colors` argument that is
neither a mapping, a string, a list, nor `None` (line 222), and the
`TypeError` that `parse_mapping` raises on an unhashable key of a
list-of-pairs mapping, in source order — `colors` is parsed first (line 211),
the colors type check runs next, and the kwargs are parsed last (lines
242-262).  A Python string is modelled as its list of characters. -/
def normalize_properties (strings : List (List Char)) (colors : PyVal)
    (kwargs : List (String × PyVal)) :
    Except String (List (List (String × PyVal))) :=
  let n := strings.length
  match parse_mapping colors with
  | Except.error e => Except.error e
  | Except.ok color_mapping =>
      let colorListE : Except String (List PyVal) :=
        match color_mapping with
        | some _ => Except.ok (List.replicate n PyVal.none)
        | Option.none =>
            match colors with
            | PyVal.str s => Except.ok (List.replicate n (PyVal.str s))
            | PyVal.list l => Except.ok (extend_list l n)
            | PyVal.none => Except.ok (List.replicate n PyVal.none)
            | _ => Except.error "colors must be a string, a list, or a mapping."
      match colorListE with
      | Except.error e => Except.error e
      | Except.ok color_list =>
          match splitKwargs n kwargs
              { list_kwargs := [], mapping_kwargs := [], scalar_kwargs := [] } with
          | Except.error e => Except.error e
          | Except.ok st =>
              Except.ok ((List.range n).map (buildProps st color_mapping color_list))

/-- `string.split(' ')` (CPython semantics: split at every single space,
keeping empty parts, and the empty string yields one empty part). -/
def splitSpace : List Char → List (List Char)
  | [] => [[]]
  | c :: rest =>
      match splitSpace rest with
      | [] => [[]]
      | p :: ps => if c = ' ' then [] :: p :: ps else (c :: p) :: ps

/-- `core.py` lines 300-307, the inner loop of `_tokenize_strings` over the
parts of one string: every part except the last keeps a trailing space; the
last part is kept only when non-empty. -/
def tokenizeParts : List (List Char) → List (List Char)
  | [] => []
  | [p] => if p = [] then [] else [p]
  | p :: q :: rest => (p ++ [' ']) :: tokenizeParts (q :: rest)

/-- Word tokenization of one segment string (wrap mode only):
`parts = string.split(' ')` followed by the loop of `tokenizeParts`. -/
def tokenizeString (s : List Char) : List (List Char) :=
  tokenizeParts (splitSpace s)

/-- `core.py` lines 289-308, `_tokenize_strings`: split every segment into
word tokens, each token carrying its parent segment's property dict. -/
def tokenize_strings (strings : List (List Char))
    (properties : List (List (String × PyVal))) :
    List ((List Char) × List (String × PyVal)) :=
  (strings.zip properties).flatMap
    (fun sp => (tokenizeString sp.1).map (fun t => (t, sp.2)))

/-- One measured word: `(word, props, width, ascent)` as built by
`_build_lines_wrapped` / `_build_line_seamless`. -/
structure Measured : Type where
  word : List Char
  props : List (String × PyVal)
  width : ℚ
  ascent : ℚ
deriving Repr, DecidableEq

/-- Total width of a line, `core.py` line 566:
`line_width = sum(item[2] for item in line)`. -/
def sumWidths (line : List Measured) : ℚ :=
  (line.map Measured.width).sum

/-- `core.py` lines 479-492, the greedy packing loop of
`_build_lines_wrapped`: wrap to a new line exactly when
`current_line_width + w > box_width and current_line`. -/
def packLoop (box_width : ℚ) :
    List Measured → List Measured → ℚ → List (List Measured)
  | [], current_line, _ =>
      if current_line = [] then [] else [current_line]
  | m :: rest, current_line, current_line_width =>
      if box_width < current_line_width + m.width ∧ current_line ≠ [] then
        current_line :: packLoop box_width rest [m] m.width
      else
        packLoop box_width rest (current_line ++ [m]) (current_line_width + m.width)

/-- `core.py` lines 465-494, `_build_lines_wrapped` on an already-measured
token stream (in the source each token is measured by `_get_text_metrics`
just before the packing decision; the decision uses only the width). -/
def build_lines_wrapped (box_width : ℚ) (words : List Measured) :
    List (List Measured) :=
  packLoop box_width words [] 0

/-- `core.py` lines 497-511, `_build_line_seamless`: every segment becomes
one measured item of a single line; `measure` is the `_get_text_metrics`
oracle returning (width, ascent). -/
def build_line_seamless
    (measure : List Char → List (String × PyVal) → ℚ × ℚ)
    (strings : List (List Char)) (properties : List (List (String × PyVal))) :
    List Measured :=
  (strings.zip properties).map
    (fun sp => ⟨sp.1, sp.2, (measure sp.1 sp.2).1, (measure sp.1 sp.2).2⟩)

/-- The host canvas: the multiset of artifacts currently added to the axes,
with a fresh-id counter.  `ax.text` appends a new artifact, `t.remove()`
erases it. -/
structure Canvas : Type where
  artifacts : List Nat
  nextId : Nat
deriving Repr, DecidableEq

/-- `ax.text(...)`: add a scratch text artifact, returning its handle. -/
def Canvas.addText (c : Canvas) : Nat × Canvas :=
  (c.nextId, ⟨c.artifacts ++ [c.nextId], c.nextId + 1⟩)

/-- `t.remove()`: remove an artifact from the canvas. -/
def Canvas.removeArtifact (c : Canvas) (i : Nat) : Canvas :=
  ⟨c.artifacts.erase i, c.nextId⟩

/-- `core.py` lines 406-416, the native path of `_get_text_metrics`:
draw a scratch text, query its window extent and transform it to data
coordinates (the combined query is the oracle `window_extent`, returning the
data-space (width, height) of the bounding box, or `none` when the query or
the transform raises), then `t.remove()`.  The statements run in source
order: when the query raises, the `t.remove()` on line 415 is never
executed and the exception propagates with the scratch artifact still on
the canvas. -/
def get_text_metrics_native (c : Canvas)
    (window_extent : Nat → Option (ℚ × ℚ)) :
    Except String (ℚ × ℚ) × Canvas :=
  let tc := c.addText
  match window_extent tc.1 with
  | Option.none => (Except.error "get_window_extent raised", tc.2)
  | some wh => (Except.ok (wh.1, wh.2), tc.2.removeArtifact tc.1)

/-- `core.py` lines 546-554 in `_draw_lines`: the y coordinate of the top
edge of the block, from the anchor `y`, the block height and the vertical
alignment; any unrecognized value falls through to the centering branch. -/
def top_y (va : String) (y total_block_height : ℚ) : ℚ :=
  if va = "center" then y + total_block_height / 2
  else if va = "top" then y
  else if va = "bottom" then y + total_block_height
  else y + total_block_height / 2

/-- `core.py` line 111:
`va = kwargs.pop('va', kwargs.pop('verticalalignment', 'center'))`. -/
def pop_va (kwargs : List (String × PyVal)) : PyVal :=
  match dget kwargs "va" with
  | some v => v
  | Option.none =>
      match dget kwargs "verticalalignment" with
      | some v => v
      | Option.none => PyVal.str "center"

/-- `core.py` lines 568-573 in `_draw_lines`: the starting x of a line under
horizontal alignment. -/
def line_start_x (ha : String) (x line_width : ℚ) : ℚ :=
  if ha = "center" then x - line_width / 2
  else if ha = "right" then x - line_width
  else x

/-- Python truthiness of an embedded value (`if underline:`). -/
def truthy : PyVal → Bool
  | PyVal.none => false
  | PyVal.str s => s ≠ ""
  | PyVal.int n => n ≠ 0
  | PyVal.list xs => xs ≠ []
  | PyVal.tuple xs => xs ≠ []
  | PyVal.dict xs => xs ≠ []

/-- Python `d.pop(k, default)` restricted to its effect on the dict: the
entry with key `k` is removed. -/
def dictPop {α β : Type} [DecidableEq α] (d : List (α × β)) (k : α) :
    List (α × β) :=
  d.filter (fun kv => decide (kv.1 ≠ k))

/-- Every name that `_draw_lines` (`core.py` lines 514-670) binds: its
parameters and every local variable assigned anywhere in its body. -/
def draw_lines_locals : List String :=
  ["lines", "x", "y", "ax", "renderer", "linespacing", "ha", "va",
   "transform", "zorder",
   "text_objects", "line_metrics", "line", "max_ascent", "max_height",
   "word", "props", "w", "asc", "h", "total_block_height", "top_y",
   "current_y", "i", "line_height", "baseline_y", "line_width",
   "line_start_x", "current_x", "text_kwargs", "underline", "used_shaper",
   "t", "path", "e", "fontsize", "bbox", "bbox_data", "y_bottom", "color"]

/-- `core.py` lines 642-648 in `_draw_lines`: compute `y_bottom` for the
underline.  `bbox_bottom` is the `t.get_window_extent` query transformed to
data space (`none` models the query raising); on failure the code reads the
name `line_center_y` from the local environment `env`, and an unbound name
is a `NameError`. -/
def underline_y_bottom (env : List (String × ℚ)) (bbox_bottom : Option ℚ) :
    Except String ℚ :=
  match bbox_bottom with
  | some y0 => Except.ok y0
  | Option.none =>
      match dget env "line_center_y" with
      | some v => Except.ok (v - 5)
      | Option.none =>
          Except.error "NameError: name 'line_center_y' is not defined"

/-- A text drawn on the axes by `_draw_lines`: the word, its anchor
(x, baseline y) and its property dict (underline popped, baseline/left
alignment set; the opaque `transform`/`zorder` handles are not modelled). -/
structure DrawnText : Type where
  word : List Char
  x : ℚ
  y : ℚ
  props : List (String × PyVal)
deriving Repr

/-- An underline `Line2D` drawn by `_draw_lines`: from `x0` to `x1` at
height `y0`. -/
structure DrawnLine2D : Type where
  x0 : ℚ
  x1 : ℚ
  y0 : ℚ
deriving Repr

/-- `core.py` lines 577-666, the per-word loop of `_draw_lines` for one
line: draw each word at the shared baseline, then draw its underline when
the popped `underline` property is truthy.  `bbox_y0` is the data-space
bottom of the drawn text's window extent (`none` models the query raising,
in which case the unbound read of `line_center_y` raises `NameError` and
the traversal aborts with the artifacts drawn so far). -/
def draw_words (bbox_y0 : List Char → Option ℚ) (baseline_y : ℚ) :
    List Measured → ℚ → List DrawnText × List DrawnLine2D × Except String Unit
  | [], _ => ([], [], Except.ok ())
  | m :: rest, current_x =>
      let underline := (dget m.props "underline").getD PyVal.none
      let text_kwargs :=
        dictSet (dictSet (dictPop m.props "underline") "va" (PyVal.str "baseline"))
          "ha" (PyVal.str "left")
      let drawn : DrawnText := ⟨m.word, current_x, baseline_y, text_kwargs⟩
      if truthy underline then
        match bbox_y0 m.word with
        | some y0 =>
            let r := draw_words bbox_y0 baseline_y rest (current_x + m.width)
            (drawn :: r.1, ⟨current_x, current_x + m.width, y0⟩ :: r.2.1, r.2.2)
        | Option.none =>
            ([drawn], [],
             Except.error "NameError: name 'line_center_y' is not defined")
      else
        let r := draw_words bbox_y0 baseline_y rest (current_x + m.width)
        (drawn :: r.1, r.2.1, r.2.2)

/-- `core.py` lines 536 in `_draw_lines`:
`max(item[3] for item in line) if line else 0.0`. -/
def max_ascent_of (line : List Measured) : ℚ :=
  match line with
  | [] => 0
  | m :: rest => rest.foldl (fun a x => max a x.ascent) m.ascent

/-- `core.py` lines 537-541 in `_draw_lines`: the running maximum of the
word heights of a line, starting at `0.0`; `height_of` is the
`_get_text_height` oracle. -/
def max_height_of (height_of : List Char → List (String × PyVal) → ℚ)
    (line : List Measured) : ℚ :=
  line.foldl
    (fun mh m => if mh < height_of m.word m.props then height_of m.word m.props else mh) 0

/-- `core.py` lines 558-668, the outer loop of `_draw_lines`: lay out each
line at its baseline, advancing `current_y` by the line height. -/
def draw_lines_loop (bbox_y0 : List Char → Option ℚ) (x : ℚ) (ha : String) :
    List (List Measured × ℚ × ℚ) → ℚ →
    List DrawnText × List DrawnLine2D × Except String Unit
  | [], _ => ([], [], Except.ok ())
  | lm :: rest, current_y =>
      let baseline_y := current_y - lm.2.1
      let sx := line_start_x ha x (sumWidths lm.1)
      let r := draw_words bbox_y0 baseline_y lm.1 sx
      match r.2.2 with
      | Except.error e => (r.1, r.2.1, Except.error e)
      | Except.ok _ =>
          let r2 := draw_lines_loop bbox_y0 x ha rest (current_y - lm.2.2)
          (r.1 ++ r2.1, r.2.1 ++ r2.2.1, r2.2.2)

/-- `core.py` lines 514-670, `_draw_lines`: compute per-line metrics, the
block height and the block top under vertical alignment, then draw every
line.  Returns the drawn text artifacts, the drawn underline segments and
the raise status. -/
def draw_lines (lines : List (List Measured)) (x y : ℚ) (linespacing : ℚ)
    (ha va : String) (height_of : List Char → List (String × PyVal) → ℚ)
    (bbox_y0 : List Char → Option ℚ) :
    List DrawnText × List DrawnLine2D × Except String Unit :=
  let line_metrics := lines.map
    (fun line => (max_ascent_of line, max_height_of height_of line * linespacing))
  let total_block_height := (line_metrics.map (fun m => m.2)).sum
  let top := top_y va y total_block_height
  draw_lines_loop bbox_y0 x ha (lines.zip line_metrics) top

/-- `core.py` lines 48-147, `richtext`, with the global options
(`box_width`, `linespacing`, `ha`, `va`) already popped from the keyword
arguments as on lines 104-113, and the canvas measurement queries passed as
oracles: `measure` is `_get_text_metrics` (width, ascent), `height_of` is
`_get_text_height`, `bbox_y0` the underline bounding-box query.
`_normalize_properties` runs first; when it raises, the call aborts before
any token is measured and before anything is drawn, so the artifact lists
are empty. -/
def richtext (x y : ℚ) (strings : List (List Char)) (colors : PyVal)
    (kwargs : List (String × PyVal)) (box_width : Option ℚ)
    (linespacing : ℚ) (ha va : String)
    (measure : List Char → List (String × PyVal) → ℚ × ℚ)
    (height_of : List Char → List (String × PyVal) → ℚ)
    (bbox_y0 : List Char → Option ℚ) :
    List DrawnText × List DrawnLine2D × Except String Unit :=
  match normalize_properties strings colors kwargs with
  | Except.error e => ([], [], Except.error e)
  | Except.ok segment_properties =>
      let lines :=
        match box_width with
        | some bw =>
            build_lines_wrapped bw
              ((tokenize_strings strings segment_properties).map
                (fun wp => ⟨wp.1, wp.2, (measure wp.1 wp.2).1, (measure wp.1 wp.2).2⟩))
        | Option.none => [build_line_seamless measure strings segment_properties]
      draw_lines lines x y linespacing ha va height_of bbox_y0

/-! ### Helper lemmas about the dict model -/

theorem dget_dictSet {α β : Type} [DecidableEq α] (d : List (α × β)) (k k2 : α)
    (v : β) :
    dget (dictSet d k v) k2 = if k = k2 then some v else dget d k2 := by
  induction d with
  | nil =>
      by_cases h : k = k2 <;> simp [dictSet, dget, h]
  | cons kv rest ih =>
      obtain ⟨k0, v0⟩ := kv
      by_cases h : k0 = k
      · subst h
        by_cases h2 : k0 = k2 <;> simp [dictSet, dget, h2]
      · by_cases h2 : k0 = k2
        · subst h2
          have hkk : ¬ k = k0 := fun he => h he.symm
          simp [dictSet, dget, h, hkk]
        · simp [dictSet, dget, h, h2, ih]

theorem dget_foldl_dictSet_const (xs : List PyVal) (v : PyVal)
    (acc : List (PyVal × PyVal)) (k : PyVal) :
    dget (xs.foldl (fun d x => dictSet d x v) acc) k =
      if k ∈ xs then some v else dget acc k := by
  induction xs generalizing acc with
  | nil => simp
  | cons x rest ih =>
      by_cases hk : k ∈ rest
      · simp [List.foldl_cons, ih, hk]
      · by_cases hx : x = k
        · subst hx
          simp [List.foldl_cons, ih, hk, dget_dictSet]
        · have : ¬ k ∈ (x :: rest) := by
            simp [hx, hk]
            intro he
            exact hx he.symm
          simp [List.foldl_cons, ih, hk, dget_dictSet, hx, this]

/-! ### C7 -/

/-- C7: for a block of total height H anchored at y, `_draw_lines` places the
block's top edge at y for `va = "top"`, at y + H for `va = "bottom"`, at
y + H/2 for `va = "center"`; "center" is the default value of the `va`
option, and any unrecognized value also falls back to centering. -/
theorem C7_vertical_alignment (y H : ℚ) (va : String)
    (hva : va ≠ "top" ∧ va ≠ "bottom") :
    top_y "top" y H = y ∧
    top_y "bottom" y H = y + H ∧
    top_y "center" y H = y + H / 2 ∧
    top_y va y H = y + H / 2 ∧
    pop_va [] = PyVal.str "center" := by
  obtain ⟨h1, h2⟩ := hva
  refine ⟨by simp [top_y], by simp [top_y], by simp [top_y], ?_, by simp [pop_va, dget]⟩
  by_cases hc : va = "center" <;> simp [top_y, hc, h1, h2]

/-- Witness for C7 at `va = "middle"` (an unrecognized alignment), y = 1,
H = 4. -/
theorem C7_vertical_alignment_witness :
    ("middle" ≠ "top" ∧ "middle" ≠ "bottom") ∧
    (top_y "top" (1 : ℚ) 4 = 1 ∧
     top_y "bottom" (1 : ℚ) 4 = 1 + 4 ∧
     top_y "center" (1 : ℚ) 4 = 1 + 4 / 2 ∧
     top_y "middle" (1 : ℚ) 4 = 1 + 4 / 2 ∧
     pop_va [] = PyVal.str "center") :=
  ⟨by decide, C7_vertical_alignment 1 4 "middle" (by decide)⟩

/-! ### C5 -/

/-- C5 counterexample: native measurement does NOT remove the scratch
artifact on every exit path.  On the empty canvas, when the bounding-box
query raises (the `window_extent` oracle returns `none`), the operation
propagates the exception while the scratch artifact (id 0) is still on the
canvas. -/
theorem C5_scratch_leak_counterexample :
    (get_text_metrics_native ⟨[], 0⟩ (fun _ => Option.none)).2.artifacts = [0] ∧
    (get_text_metrics_native ⟨[], 0⟩ (fun _ => Option.none)).1 =
      Except.error "get_window_extent raised" ∧
    (⟨[], 0⟩ : Canvas).artifacts = [] := by
  exact ⟨rfl, rfl, rfl⟩

/-- C5 amended: on the non-raising path — the bounding-box query succeeds on
the scratch artifact — native measurement removes the scratch artifact
before returning, restoring the canvas artifact list exactly. -/
theorem C5_scratch_removed_on_success (c : Canvas)
    (window_extent : Nat → Option (ℚ × ℚ)) (w h : ℚ)
    (hfresh : c.nextId ∉ c.artifacts)
    (hq : window_extent c.nextId = some (w, h)) :
    (get_text_metrics_native c window_extent).2.artifacts = c.artifacts ∧
    (get_text_metrics_native c window_extent).1 = Except.ok (w, h) := by
  constructor
  · simp only [get_text_metrics_native, Canvas.addText, hq, Canvas.removeArtifact]
    simp [List.erase_append_right _ hfresh]
  · simp only [get_text_metrics_native, Canvas.addText, hq]

/-- Witness for C5 amended: canvas with artifacts [3, 7], next id 9, query
returning width 5 and height 2. -/
theorem C5_scratch_removed_on_success_witness :
    ((⟨[3, 7], 9⟩ : Canvas).nextId ∉ (⟨[3, 7], 9⟩ : Canvas).artifacts ∧
     (fun _ : Nat => some ((5 : ℚ), (2 : ℚ))) (⟨[3, 7], 9⟩ : Canvas).nextId =
       some ((5 : ℚ), (2 : ℚ))) ∧
    ((get_text_metrics_native ⟨[3, 7], 9⟩ (fun _ => some ((5 : ℚ), (2 : ℚ)))).2.artifacts =
       (⟨[3, 7], 9⟩ : Canvas).artifacts ∧
     (get_text_metrics_native ⟨[3, 7], 9⟩ (fun _ => some ((5 : ℚ), (2 : ℚ)))).1 =
       Except.ok ((5 : ℚ), (2 : ℚ))) :=
  ⟨⟨by decide, rfl⟩,
   C5_scratch_removed_on_success ⟨[3, 7], 9⟩ _ 5 2 (by decide) rfl⟩

/-! ### C9 -/

theorem dget_eq_none_of_forall_ne {α β : Type} [DecidableEq α]
    (env : List (α × β)) (k : α) (h : ∀ kv ∈ env, kv.1 ≠ k) :
    dget env k = Option.none := by
  induction env with
  | nil => rfl
  | cons kv rest ih =>
      have hne : kv.1 ≠ k := h kv (List.mem_cons_self kv rest)
      simp only [dget, if_neg hne]
      exact ih (fun kv2 hm => h kv2 (List.mem_cons_of_mem kv hm))

/-- C9: `line_center_y` is not among the names `_draw_lines` ever binds, so
in any local environment the drawing routine can reach, the underline
fallback (taken when the bounding-box query raises) reads an unbound name
and raises `NameError`; the word loop then aborts with no underline drawn
(empty `Line2D` list) instead of drawing a fallback underline. -/
theorem C9_underline_fallback_name_error (env : List (String × ℚ))
    (m : Measured) (rest : List Measured) (baseline_y current_x : ℚ)
    (henv : ∀ kv ∈ env, kv.1 ∈ draw_lines_locals)
    (hu : truthy ((dget m.props "underline").getD PyVal.none) = true) :
    "line_center_y" ∉ draw_lines_locals ∧
    underline_y_bottom env Option.none =
      Except.error "NameError: name 'line_center_y' is not defined" ∧
    (draw_words (fun _ => Option.none) baseline_y (m :: rest) current_x).2.1 = [] ∧
    (draw_words (fun _ => Option.none) baseline_y (m :: rest) current_x).2.2 =
      Except.error "NameError: name 'line_center_y' is not defined" := by
  have hnotin : "line_center_y" ∉ draw_lines_locals := by decide
  have hlookup : dget env "line_center_y" = Option.none := by
    refine dget_eq_none_of_forall_ne env _ (fun kv hm he => ?_)
    exact hnotin (he ▸ henv kv hm)
  refine ⟨hnotin, ?_, ?_, ?_⟩
  · simp [underline_y_bottom, hlookup]
  · simp [draw_words, hu]
  · simp [draw_words, hu]

/-- Witness for C9: a one-word line with `underline=True` (modelled as int 1,
a truthy value), empty environment. -/
theorem C9_underline_fallback_name_error_witness :
    ((∀ kv ∈ ([] : List (String × ℚ)), kv.1 ∈ draw_lines_locals) ∧
     truthy ((dget [("underline", PyVal.int 1)] "underline").getD PyVal.none) = true) ∧
    ("line_center_y" ∉ draw_lines_locals ∧
     underline_y_bottom [] Option.none =
       Except.error "NameError: name 'line_center_y' is not defined" ∧
     (draw_words (fun _ => Option.none) 0
        [⟨['h', 'i'], [("underline", PyVal.int 1)], 2, 1⟩] 0).2.1 = [] ∧
     (draw_words (fun _ => Option.none) 0
        [⟨['h', 'i'], [("underline", PyVal.int 1)], 2, 1⟩] 0).2.2 =
       Except.error "NameError: name 'line_center_y' is not defined") :=
  ⟨⟨fun kv hm => absurd hm (List.not_mem_nil kv), rfl⟩,
   C9_underline_fallback_name_error [] ⟨['h', 'i'], [("underline", PyVal.int 1)], 2, 1⟩
     [] 0 0 (fun kv hm => absurd hm (List.not_mem_nil kv)) rfl⟩

/-! ### C1 -/

/-- C1: evaluation of `_normalize_properties` at the failing input
(`test_styles_mixed_with_colors` from the repository's own test suite:
`colors=['green','green','green']`,
`styles={1: {'color': 'red', 'fontsize': 30}}`, `fontsize=20`).  The claimed
style-bundle merge never happens: segment 1 keeps `color='green'` and
`fontsize=20`, and instead carries a literal `styles` property holding the
raw inner dict, which is later forwarded verbatim to the canvas text call.
The test asserts `color='red'` and `fontsize=30` for segment 1. -/
theorem C1_styles_bundle_not_merged :
    normalize_properties [['A'], ['B'], ['C']]
      (PyVal.list [PyVal.str "green", PyVal.str "green", PyVal.str "green"])
      [("styles", PyVal.dict [(PyVal.int 1,
          PyVal.dict [(PyVal.str "color", PyVal.str "red"),
                      (PyVal.str "fontsize", PyVal.int 30)])]),
       ("fontsize", PyVal.int 20)] =
      Except.ok
        [[("fontsize", PyVal.int 20), ("color", PyVal.str "green")],
         [("fontsize", PyVal.int 20), ("color", PyVal.str "green"),
          ("styles", PyVal.dict [(PyVal.str "color", PyVal.str "red"),
                                 (PyVal.str "fontsize", PyVal.int 30)])],
         [("fontsize", PyVal.int 20), ("color", PyVal.str "green")]] ∧
    dget [("fontsize", PyVal.int 20), ("color", PyVal.str "green"),
          ("styles", PyVal.dict [(PyVal.str "color", PyVal.str "red"),
                                 (PyVal.str "fontsize", PyVal.int 30)])] "color" =
      some (PyVal.str "green") ∧
    dget [("fontsize", PyVal.int 20), ("color", PyVal.str "green"),
          ("styles", PyVal.dict [(PyVal.str "color", PyVal.str "red"),
                                 (PyVal.str "fontsize", PyVal.int 30)])] "fontsize" =
      some (PyVal.int 20) :=
  ⟨rfl, rfl, rfl⟩

/-! ### C3 -/

/-- `colors` values that are neither a string, nor a list, nor a mapping,
nor `None` (in the embedded value universe: ints and tuples). -/
def colorsInvalid : PyVal → Bool
  | PyVal.int _ => true
  | PyVal.tuple _ => true
  | _ => false

/-- Classifying a keyword value never raises when its `parse_mapping` does
not raise. -/
theorem splitStep_ok (n : Nat) (st : KwSplit) (k : String) (v : PyVal)
    (h : ∀ e, parse_mapping v ≠ Except.error e) :
    ∃ st2, splitStep n st (k, v) = Except.ok st2 := by
  cases hres : splitStep n st (k, v) with
  | ok st2 => exact ⟨st2, rfl⟩
  | error e =>
      exfalso
      cases hp : parse_mapping v with
      | error e2 => exact h e2 hp
      | ok o =>
          cases hdp : dget plural_map k with
          | some s =>
              cases o with
              | some m => simp [splitStep, hdp, hp] at hres
              | none => cases v <;> simp [splitStep, hdp, hp] at hres
          | none =>
              cases o with
              | some m => simp [splitStep, hdp, hp] at hres
              | none => cases v <;> simp [splitStep, hdp, hp] at hres

/-- The kwargs loop returns normally when no keyword value's parse raises. -/
theorem splitKwargs_ok (n : Nat) :
    ∀ (kwargs : List (String × PyVal)) (st : KwSplit),
      (∀ kv ∈ kwargs, ∀ e, parse_mapping kv.2 ≠ Except.error e) →
      ∃ st2, splitKwargs n kwargs st = Except.ok st2 := by
  intro kwargs
  induction kwargs with
  | nil =>
      intro st h
      exact ⟨st, rfl⟩
  | cons kv rest ih =>
      intro st h
      obtain ⟨st1, h1⟩ :=
        splitStep_ok n st kv.1 kv.2 (h kv (List.mem_cons_self kv rest))
      obtain ⟨st2, h2⟩ := ih st1 (fun kv2 hm => h kv2 (List.mem_cons_of_mem kv hm))
      exact ⟨st2, by simp [splitKwargs, h1, h2]⟩

/-- C3 counterexample: the claim's "never raises" half is false of the
program.  `colors=[([0], 'red'), ({}, 'blue')]` is a list — one of the
claimed-safe shapes (`colorsInvalid` is false) — and it passes the
first-pair type check at line 196, but the second pair's dict key is
unhashable, so `flat_d[k] = v` at line 205 raises `TypeError` out of
`_normalize_properties` and out of `richtext`. -/
theorem C3_never_raises_counterexample :
    colorsInvalid (PyVal.list
      [PyVal.tuple [PyVal.list [PyVal.int 0], PyVal.str "red"],
       PyVal.tuple [PyVal.dict [], PyVal.str "blue"]]) = false ∧
    normalize_properties [['A']]
      (PyVal.list
        [PyVal.tuple [PyVal.list [PyVal.int 0], PyVal.str "red"],
         PyVal.tuple [PyVal.dict [], PyVal.str "blue"]]) [] =
      Except.error "TypeError: unhashable type" ∧
    richtext 0 0 [['A']]
      (PyVal.list
        [PyVal.tuple [PyVal.list [PyVal.int 0], PyVal.str "red"],
         PyVal.tuple [PyVal.dict [], PyVal.str "blue"]]) [] Option.none
      ((3 : ℚ) / 2) "left" "center" (fun _ _ => (1, 1)) (fun _ _ => 1)
      (fun _ => some 0) =
      ([], [], Except.error "TypeError: unhashable type") :=
  ⟨rfl, rfl, rfl⟩

/-- C3 amended: a `colors` argument that is none of string/list/mapping/
`None` makes `richtext` fail with the `InvalidArgument` error (`ValueError`
with the message below), raised by `_normalize_properties` before anything
is drawn — the returned artifact lists are empty.  For a colors argument of
the four accepted shapes, property resolution returns normally PROVIDED no
property value (colors itself or a keyword value) is a list-of-pairs index
mapping that mentions an unhashable key past the first pair's type check;
such a value instead raises `TypeError` (see the counterexample). -/
theorem C3_colors_validation (x y : ℚ) (strings : List (List Char))
    (colorsBad colorsGood : PyVal) (kwargs : List (String × PyVal))
    (box_width : Option ℚ) (linespacing : ℚ) (ha va : String)
    (measure : List Char → List (String × PyVal) → ℚ × ℚ)
    (height_of : List Char → List (String × PyVal) → ℚ)
    (bbox_y0 : List Char → Option ℚ)
    (hbad : colorsInvalid colorsBad = true)
    (hgood : colorsInvalid colorsGood = false)
    (hnrc : ∀ e, parse_mapping colorsGood ≠ Except.error e)
    (hnrk : ∀ kv ∈ kwargs, ∀ e, parse_mapping kv.2 ≠ Except.error e) :
    richtext x y strings colorsBad kwargs box_width linespacing ha va
        measure height_of bbox_y0 =
      ([], [], Except.error "colors must be a string, a list, or a mapping.") ∧
    normalize_properties strings colorsBad kwargs =
      Except.error "colors must be a string, a list, or a mapping." ∧
    ∃ ps, normalize_properties strings colorsGood kwargs = Except.ok ps := by
  have hb : normalize_properties strings colorsBad kwargs =
      Except.error "colors must be a string, a list, or a mapping." := by
    cases colorsBad with
    | int n => rfl
    | tuple xs => rfl
    | none => simp [colorsInvalid] at hbad
    | str s => simp [colorsInvalid] at hbad
    | list l => simp [colorsInvalid] at hbad
    | dict d => simp [colorsInvalid] at hbad
  obtain ⟨st2, hsk⟩ := splitKwargs_ok strings.length kwargs
    { list_kwargs := [], mapping_kwargs := [], scalar_kwargs := [] } hnrk
  refine ⟨?_, hb, ?_⟩
  · simp [richtext, hb]
  · cases colorsGood with
    | int n => simp [colorsInvalid] at hgood
    | tuple xs => simp [colorsInvalid] at hgood
    | none =>
        cases hres : normalize_properties strings PyVal.none kwargs with
        | ok ps => exact ⟨ps, rfl⟩
        | error e =>
            exfalso
            have hc : parse_mapping PyVal.none = Except.ok Option.none := rfl
            simp [normalize_properties, hc, hsk] at hres
    | str s =>
        cases hres : normalize_properties strings (PyVal.str s) kwargs with
        | ok ps => exact ⟨ps, rfl⟩
        | error e =>
            exfalso
            have hc : parse_mapping (PyVal.str s) = Except.ok Option.none := rfl
            simp [normalize_properties, hc, hsk] at hres
    | dict d =>
        cases hres : normalize_properties strings (PyVal.dict d) kwargs with
        | ok ps => exact ⟨ps, rfl⟩
        | error e =>
            exfalso
            have hc : parse_mapping (PyVal.dict d) =
                Except.ok (some (d.foldl (fun acc kv => flattenEntry acc kv.1 kv.2) [])) := rfl
            simp [normalize_properties, hc, hsk] at hres
    | list l =>
        cases hres : normalize_properties strings (PyVal.list l) kwargs with
        | ok ps => exact ⟨ps, rfl⟩
        | error e =>
            exfalso
            cases hp : parse_mapping (PyVal.list l) with
            | error e2 => exact hnrc e2 hp
            | ok o =>
                cases o with
                | some m => simp [normalize_properties, hp, hsk] at hres
                | none => simp [normalize_properties, hp, hsk] at hres

/-- Witness for C3: `colors=42` (the spec's own invalid example) against
`colors=None`, on a one-segment call with no extra kwargs. -/
theorem C3_colors_validation_witness :
    (colorsInvalid (PyVal.int 42) = true ∧
     colorsInvalid PyVal.none = false ∧
     (∀ e, parse_mapping PyVal.none ≠ Except.error e) ∧
     (∀ kv ∈ ([] : List (String × PyVal)), ∀ e,
        parse_mapping kv.2 ≠ Except.error e)) ∧
    (richtext 0 0 [['h', 'i']] (PyVal.int 42) [] Option.none
        ((3 : ℚ) / 2) "left" "center" (fun _ _ => (1, 1)) (fun _ _ => 1)
        (fun _ => some 0) =
       ([], [], Except.error "colors must be a string, a list, or a mapping.") ∧
     normalize_properties [['h', 'i']] (PyVal.int 42) [] =
       Except.error "colors must be a string, a list, or a mapping." ∧
     ∃ ps, normalize_properties [['h', 'i']] PyVal.none [] = Except.ok ps) :=
  ⟨⟨rfl, rfl, fun _ h => Except.noConfusion h,
    fun kv hm => absurd hm (List.not_mem_nil kv)⟩,
   C3_colors_validation 0 0 [['h', 'i']] (PyVal.int 42) PyVal.none [] Option.none
     ((3 : ℚ) / 2) "left" "center" (fun _ _ => (1, 1)) (fun _ _ => 1)
     (fun _ => some 0) rfl rfl (fun _ h => Except.noConfusion h)
     (fun kv hm => absurd hm (List.not_mem_nil kv))⟩

/-! ### C6 -/

theorem foldl_flattenEntry_int_map (is : List Int) (v : PyVal)
    (acc : List (PyVal × PyVal)) :
    (is.map (fun i => (PyVal.int i, v))).foldl
        (fun d kv => flattenEntry d kv.1 kv.2) acc =
      (is.map PyVal.int).foldl (fun d x => dictSet d x v) acc := by
  induction is generalizing acc with
  | nil => rfl
  | cons i rest ih =>
      simp only [List.map_cons, List.foldl_cons]
      rw [show flattenEntry acc (PyVal.int i) v = dictSet acc (PyVal.int i) v from rfl]
      exact ih _

theorem normalize_dict_congr (strings : List (List Char))
    (kwargs : List (String × PyVal)) (e1 e2 : List (PyVal × PyVal))
    (h : parse_mapping (PyVal.dict e1) = parse_mapping (PyVal.dict e2)) :
    normalize_properties strings (PyVal.dict e1) kwargs =
      normalize_properties strings (PyVal.dict e2) kwargs := by
  have h2 : e1.foldl (fun acc kv => flattenEntry acc kv.1 kv.2) [] =
      e2.foldl (fun acc kv => flattenEntry acc kv.1 kv.2) [] := by
    simp only [parse_mapping, Except.ok.injEq, Option.some.injEq] at h
    exact h
  simp [normalize_properties, parse_mapping, h2]

/-- C6: expansion law for tuple keys of an index mapping.  Parsing a mapping
whose first entry has the tuple key `(i0, ..., im)` equals parsing the
mapping with that entry replaced by the individual entries `i0: v`, ...,
`im: v`; consequently full property resolution with either form of the
mapping as `colors` agrees; and in the parsed mapping every index listed in
the tuple is sent to `v` while any index not listed is absent. -/
theorem C6_tuple_key_expansion (is : List Int) (v : PyVal)
    (rest : List (PyVal × PyVal)) (strings : List (List Char))
    (kwargs : List (String × PyVal)) (j : Int) :
    parse_mapping (PyVal.dict ((PyVal.tuple (is.map PyVal.int), v) :: rest)) =
      parse_mapping (PyVal.dict (is.map (fun i => (PyVal.int i, v)) ++ rest)) ∧
    normalize_properties strings
        (PyVal.dict ((PyVal.tuple (is.map PyVal.int), v) :: rest)) kwargs =
      normalize_properties strings
        (PyVal.dict (is.map (fun i => (PyVal.int i, v)) ++ rest)) kwargs ∧
    dget (parsedFlat (PyVal.dict [(PyVal.tuple (is.map PyVal.int), v)]))
        (PyVal.int j) = (if j ∈ is then some v else Option.none) := by
  have hparse : parse_mapping (PyVal.dict ((PyVal.tuple (is.map PyVal.int), v) :: rest)) =
      parse_mapping (PyVal.dict (is.map (fun i => (PyVal.int i, v)) ++ rest)) := by
    simp only [parse_mapping, List.foldl_cons, List.foldl_append,
      foldl_flattenEntry_int_map]
    rw [show flattenEntry [] (PyVal.tuple (is.map PyVal.int)) v =
      (is.map PyVal.int).foldl (fun d x => dictSet d x v) [] from rfl]
  refine ⟨hparse, normalize_dict_congr strings kwargs _ _ hparse, ?_⟩
  rw [show parsedFlat (PyVal.dict [(PyVal.tuple (is.map PyVal.int), v)]) =
    (is.map PyVal.int).foldl (fun acc x => dictSet acc x v) [] from rfl]
  rw [dget_foldl_dictSet_const]
  have hmem : (PyVal.int j ∈ is.map PyVal.int) = (j ∈ is) := by
    simp [List.mem_map]
  by_cases hj : j ∈ is
  · simp [hj, hmem]
  · simp [hj, hmem, dget]

/-! ### Shared helpers for list-valued properties (C4, C10) -/

theorem getD_replicate_none (n j : Nat) :
    (List.replicate n PyVal.none).getD j PyVal.none = PyVal.none := by
  induction n generalizing j with
  | zero => simp [List.getD]
  | succ n ih =>
      cases j with
      | zero => simp [List.replicate]
      | succ j => simp [List.replicate]

/-- Resolution of a single non-plural list-valued keyword: every segment
receives the corresponding entry of the extended list. -/
theorem normalize_single_list (strings : List (List Char)) (k : String)
    (l : List PyVal)
    (hk : dget plural_map k = Option.none)
    (hpm : parse_mapping (PyVal.list l) = Except.ok Option.none) :
    normalize_properties strings PyVal.none [(k, PyVal.list l)] =
      Except.ok ((List.range strings.length).map
        (fun j => [(k, (extend_list l strings.length).getD j PyVal.none)])) := by
  have hc : parse_mapping PyVal.none = Except.ok Option.none := rfl
  simp only [normalize_properties, splitKwargs, splitStep, hk, hpm, hc]
  refine congrArg Except.ok (List.map_congr_left ?_)
  intro j _
  simp [buildProps, dictSet, getD_replicate_none, hc]

theorem getD_map_range {α : Type} (n i : Nat) (f : Nat → α) (d : α)
    (hi : i < n) :
    ((List.range n).map f).getD i d = f i := by
  rw [List.getD_eq_getElem?_getD]
  simp [List.getElem?_map, List.getElem?_range, hi]

/-! ### C10 -/

/-- C10: a list-valued property longer than `strings` is truncated to the
first n values — segment i receives the list's i-th element — and the extra
values are ignored without an error (the call returns normally). -/
theorem C10_overlong_list_truncated (strings : List (List Char)) (k : String)
    (l : List PyVal) (i : Nat)
    (hk : dget plural_map k = Option.none)
    (hpm : parse_mapping (PyVal.list l) = Except.ok Option.none)
    (hlen : strings.length ≤ l.length) (hi : i < strings.length) :
    normalize_properties strings PyVal.none [(k, PyVal.list l)] =
      Except.ok ((List.range strings.length).map
        (fun j => [(k, l.getD j PyVal.none)])) ∧
    ((List.range strings.length).map
        (fun j => [(k, l.getD j PyVal.none)])).getD i [] =
      [(k, l.getD i PyVal.none)] := by
  constructor
  · rw [normalize_single_list strings k l hk hpm]
    refine congrArg Except.ok (List.map_congr_left ?_)
    intro j hj
    have hjn : j < strings.length := List.mem_range.mp hj
    have : (extend_list l strings.length).getD j PyVal.none = l.getD j PyVal.none := by
      by_cases hnil : l = []
      · subst hnil
        simp [extend_list, getD_replicate_none, List.getD]
      · simp only [extend_list, if_neg hnil, if_pos hlen]
        rw [List.getD_eq_getElem?_getD, List.getD_eq_getElem?_getD,
          List.getElem?_take_of_lt hjn]
    rw [this]
  · exact getD_map_range _ _ _ _ hi

/-! ### C4 -/

/-- C4: list extension law.  (1) Resolution of a list-valued property gives
every segment the corresponding entry of the extended list; (2) for a
non-empty list no longer than `strings`, index i < k receives the list's
i-th element and index i ≥ k its last element; (3) an empty list resolves
every index to `None` (the property carries no value); (4) an index-mapping
override (here: a plural-keyed mapping folded onto the same property) still
applies on top of the empty list. -/
theorem C4_list_extension_law (strings : List (List Char)) (k pk : String)
    (l : List PyVal) (d : List (PyVal × PyVal)) (i : Nat)
    (hk : dget plural_map k = Option.none)
    (hpm : parse_mapping (PyVal.list l) = Except.ok Option.none)
    (hpk : dget plural_map pk = some k) :
    (normalize_properties strings PyVal.none [(k, PyVal.list l)] =
      Except.ok ((List.range strings.length).map
        (fun j => [(k, (extend_list l strings.length).getD j PyVal.none)]))) ∧
    (l ≠ [] → l.length ≤ strings.length → i < strings.length →
      (extend_list l strings.length).getD i PyVal.none =
        if i < l.length then l.getD i PyVal.none
        else l.getLast?.getD PyVal.none) ∧
    ((extend_list [] strings.length).getD i PyVal.none = PyVal.none) ∧
    (normalize_properties strings PyVal.none
        [(k, PyVal.list []), (pk, PyVal.dict d)] =
      Except.ok ((List.range strings.length).map
        (fun (j : Nat) => [(k, (dget (dictUpdate []
            (parsedFlat (PyVal.dict d))) (PyVal.int j)).getD
              PyVal.none)]))) := by
  refine ⟨normalize_single_list strings k l hk hpm, ?_, ?_, ?_⟩
  · intro hne hlen hi
    by_cases hcase : strings.length ≤ l.length
    · have : l.length = strings.length := Nat.le_antisymm hlen hcase
      simp only [extend_list, if_neg hne, if_pos hcase]
      rw [List.getD_eq_getElem?_getD, List.getD_eq_getElem?_getD,
        List.getElem?_take_of_lt hi]
      simp [this ▸ hi]
    · have hlt : l.length < strings.length := Nat.lt_of_not_le hcase
      simp only [extend_list, if_neg hne, if_neg hcase]
      by_cases hil : i < l.length
      · rw [List.getD_eq_getElem?_getD, List.getD_eq_getElem?_getD,
          List.getElem?_append_left hil]
        simp [hil]
      · have hge : l.length ≤ i := Nat.le_of_not_lt hil
        rw [List.getD_eq_getElem?_getD, List.getElem?_append_right hge]
        have hidx : i - l.length < strings.length - l.length := by omega
        simp [List.getElem?_replicate, hidx, hil]
  · simp [extend_list, getD_replicate_none]
  · have hc : parse_mapping PyVal.none = Except.ok Option.none := rfl
    have hpme : parse_mapping (PyVal.list []) = Except.ok Option.none := rfl
    have hpd : parse_mapping (PyVal.dict d) =
        Except.ok (some (d.foldl (fun acc kv => flattenEntry acc kv.1 kv.2) [])) := rfl
    have hpf : parsedFlat (PyVal.dict d) =
        d.foldl (fun acc kv => flattenEntry acc kv.1 kv.2) [] := rfl
    simp only [normalize_properties, splitKwargs, splitStep,
      hk, hpk, hc, hpme, hpd, hpf]
    refine congrArg Except.ok (List.map_congr_left ?_)
    intro j _
    cases hd : dget (dictUpdate []
        (d.foldl (fun acc kv => flattenEntry acc kv.1 kv.2) [])) (PyVal.int j) with
    | none =>
        simp [buildProps, dictSet, extend_list, getD_replicate_none, dget, hd]
    | some v2 =>
        simp [buildProps, dictSet, extend_list, getD_replicate_none, dget, hd]

/-- Witness for C10: `fontsize=[1, 2, 3]` over 2 strings, at segment 1. -/
theorem C10_overlong_list_truncated_witness :
    (dget plural_map "fontsize" = Option.none ∧
     parse_mapping (PyVal.list [PyVal.int 1, PyVal.int 2, PyVal.int 3]) =
       Except.ok Option.none ∧
     ([['a'], ['b']] : List (List Char)).length ≤
       ([PyVal.int 1, PyVal.int 2, PyVal.int 3] : List PyVal).length ∧
     1 < ([['a'], ['b']] : List (List Char)).length) ∧
    (normalize_properties [['a'], ['b']] PyVal.none
        [("fontsize", PyVal.list [PyVal.int 1, PyVal.int 2, PyVal.int 3])] =
      Except.ok ((List.range 2).map
        (fun j => [("fontsize",
          ([PyVal.int 1, PyVal.int 2, PyVal.int 3] : List PyVal).getD j
            PyVal.none)])) ∧
     ((List.range 2).map
        (fun j => [("fontsize",
          ([PyVal.int 1, PyVal.int 2, PyVal.int 3] : List PyVal).getD j
            PyVal.none)])).getD 1 [] =
      [("fontsize",
        ([PyVal.int 1, PyVal.int 2, PyVal.int 3] : List PyVal).getD 1
          PyVal.none)]) :=
  ⟨⟨rfl, rfl, by decide, by decide⟩,
   C10_overlong_list_truncated [['a'], ['b']] "fontsize"
     [PyVal.int 1, PyVal.int 2, PyVal.int 3] 1 rfl rfl (by decide) (by decide)⟩

/-- Witness for C4: `fontsize=[7, 8]` over 3 strings at segment 2, and an
empty list with the plural mapping `fontsizes={1: 30}`. -/
theorem C4_list_extension_law_witness :
    (dget plural_map "fontsize" = Option.none ∧
     parse_mapping (PyVal.list [PyVal.int 7, PyVal.int 8]) =
       Except.ok Option.none ∧
     dget plural_map "fontsizes" = some "fontsize") ∧
    ((normalize_properties [['a'], ['b'], ['c']] PyVal.none
        [("fontsize", PyVal.list [PyVal.int 7, PyVal.int 8])] =
      Except.ok ((List.range 3).map
        (fun j => [("fontsize",
          (extend_list [PyVal.int 7, PyVal.int 8] 3).getD j PyVal.none)]))) ∧
     (([PyVal.int 7, PyVal.int 8] : List PyVal) ≠ [] →
      ([PyVal.int 7, PyVal.int 8] : List PyVal).length ≤ 3 → 2 < 3 →
      (extend_list [PyVal.int 7, PyVal.int 8] 3).getD 2 PyVal.none =
        if 2 < ([PyVal.int 7, PyVal.int 8] : List PyVal).length then
          ([PyVal.int 7, PyVal.int 8] : List PyVal).getD 2 PyVal.none
        else ([PyVal.int 7, PyVal.int 8] : List PyVal).getLast?.getD PyVal.none) ∧
     ((extend_list [] 3).getD 2 PyVal.none = PyVal.none) ∧
     (normalize_properties [['a'], ['b'], ['c']] PyVal.none
        [("fontsize", PyVal.list []),
         ("fontsizes", PyVal.dict [(PyVal.int 1, PyVal.int 30)])] =
      Except.ok ((List.range 3).map
        (fun (j : Nat) => [("fontsize", (dget (dictUpdate []
            (parsedFlat (PyVal.dict [(PyVal.int 1, PyVal.int 30)])))
              (PyVal.int j)).getD PyVal.none)])))) :=
  ⟨⟨rfl, rfl, rfl⟩,
   C4_list_extension_law [['a'], ['b'], ['c']] "fontsize" "fontsizes"
     [PyVal.int 7, PyVal.int 8] [(PyVal.int 1, PyVal.int 30)] 2 rfl rfl rfl⟩

/-! ### C8 -/

/-- `' '.join(parts)`: the inverse of `split(' ')`. -/
def sjoin : List (List Char) → List Char
  | [] => []
  | [p] => p
  | p :: q :: rest => p ++ ' ' :: sjoin (q :: rest)

theorem sjoin_cons (c : Char) (p : List Char) (ps : List (List Char)) :
    sjoin ((c :: p) :: ps) = c :: sjoin (p :: ps) := by
  cases ps with
  | nil => rfl
  | cons q rest => simp [sjoin]

theorem splitSpace_ne_nil (s : List Char) : splitSpace s ≠ [] := by
  cases s with
  | nil => simp [splitSpace]
  | cons c rest =>
      simp only [splitSpace]
      cases h : splitSpace rest with
      | nil => simp
      | cons p ps => by_cases hc : c = ' ' <;> simp [hc]

theorem sjoin_splitSpace : ∀ s : List Char, sjoin (splitSpace s) = s := by
  intro s
  induction s with
  | nil => rfl
  | cons c rest ih =>
      simp only [splitSpace]
      cases h : splitSpace rest with
      | nil => exact absurd h (splitSpace_ne_nil rest)
      | cons p ps =>
          rw [h] at ih
          by_cases hc : c = ' '
          · subst hc
            simp [sjoin, ih]
          · simp [hc, sjoin_cons, ih]

theorem tokenizeParts_flatten :
    ∀ ps : List (List Char), (tokenizeParts ps).flatten = sjoin ps
  | [] => rfl
  | [p] => by by_cases hp : p = [] <;> simp [tokenizeParts, sjoin, hp]
  | p :: q :: rest => by
      simp only [tokenizeParts, sjoin, List.flatten_cons]
      rw [tokenizeParts_flatten (q :: rest)]
      simp

theorem tokenizeParts_dropLast_trailing :
    ∀ ps : List (List Char), ∀ t ∈ (tokenizeParts ps).dropLast,
      t.getLast? = some ' '
  | [] => by simp [tokenizeParts]
  | [p] => by by_cases hp : p = [] <;> simp [tokenizeParts, hp]
  | p :: q :: rest => by
      intro t ht
      simp only [tokenizeParts] at ht
      cases hT : tokenizeParts (q :: rest) with
      | nil => rw [hT] at ht; simp at ht
      | cons a T2 =>
          rw [hT] at ht
          rw [List.dropLast_cons_of_ne_nil (by simp)] at ht
          rcases List.mem_cons.mp ht with h1 | h2
          · subst h1
            simp
          · have := tokenizeParts_dropLast_trailing (q :: rest) t
            rw [hT] at this
            exact this h2

/-- C8: wrap-mode tokenization of one segment string loses and duplicates
nothing — the concatenation of the produced tokens is exactly the input
string; every token except the final one ends with the space it preserved;
and the empty string produces no tokens. -/
theorem C8_tokenization_round_trip (s : List Char) :
    (tokenizeString s).flatten = s ∧
    (∀ t ∈ (tokenizeString s).dropLast, t.getLast? = some ' ') ∧
    tokenizeString [] = [] := by
  refine ⟨?_, tokenizeParts_dropLast_trailing _, rfl⟩
  rw [tokenizeString, tokenizeParts_flatten, sjoin_splitSpace]

/-! ### C2 -/

/-- Each successive token of a line fits: the running line width so far,
plus the token's width, stays within the box width. -/
def fitsFrom (box_width acc : ℚ) : List Measured → Prop
  | [] => True
  | m :: rest => acc + m.width ≤ box_width ∧ fitsFrom box_width (acc + m.width) rest

/-- Greedy-packing invariant of one produced line: every token after the
first was appended only because the line width so far plus its width was
within `box_width`. -/
def lineGreedyOk (box_width : ℚ) : List Measured → Prop
  | [] => True
  | m :: rest => fitsFrom box_width m.width rest

/-- Relation between consecutive produced lines: the first token of the next
line did not fit at the end of the previous line (a new line is started only
when needed). -/
def newLineNeeded (box_width : ℚ) (a b : List Measured) : Prop :=
  ∀ m ∈ b.head?, box_width < sumWidths a + m.width

theorem sumWidths_nil : sumWidths [] = 0 := rfl

theorem sumWidths_cons (m : Measured) (l : List Measured) :
    sumWidths (m :: l) = m.width + sumWidths l := by
  simp [sumWidths]

theorem sumWidths_append (l1 l2 : List Measured) :
    sumWidths (l1 ++ l2) = sumWidths l1 + sumWidths l2 := by
  simp [sumWidths]

theorem packLoop_flatten (box_width : ℚ) :
    ∀ (ws cur : List Measured) (cw : ℚ),
      (packLoop box_width ws cur cw).flatten = cur ++ ws := by
  intro ws
  induction ws with
  | nil =>
      intro cur cw
      by_cases h : cur = [] <;> simp [packLoop, h]
  | cons m rest ih =>
      intro cur cw
      by_cases h : box_width < cw + m.width ∧ cur ≠ []
      · simp [packLoop, h, ih]
      · simp [packLoop, h, ih]

theorem packLoop_ne_nil (box_width : ℚ) :
    ∀ (ws cur : List Measured) (cw : ℚ), [] ∉ packLoop box_width ws cur cw := by
  intro ws
  induction ws with
  | nil =>
      intro cur cw
      by_cases h : cur = []
      · simp [packLoop, h]
      · simp only [packLoop, if_neg h, List.mem_singleton]
        exact fun he => h he.symm
  | cons m rest ih =>
      intro cur cw
      by_cases h : box_width < cw + m.width ∧ cur ≠ []
      · simp only [packLoop, if_pos h, List.mem_cons]
        rintro (h1 | h2)
        · exact h.2 h1.symm
        · exact ih [m] m.width h2
      · simp only [packLoop, if_neg h]
        exact ih (cur ++ [m]) (cw + m.width)

theorem packLoop_first_line (box_width : ℚ) :
    ∀ (ws cur : List Measured) (cw : ℚ), cur ≠ [] →
      ∃ ext rest2, packLoop box_width ws cur cw = (cur ++ ext) :: rest2 := by
  intro ws
  induction ws with
  | nil =>
      intro cur cw hne
      exact ⟨[], [], by simp [packLoop, hne]⟩
  | cons m rest ih =>
      intro cur cw hne
      by_cases h : box_width < cw + m.width ∧ cur ≠ []
      · exact ⟨[], packLoop box_width rest [m] m.width, by simp [packLoop, h]⟩
      · obtain ⟨ext, rest2, hr⟩ := ih (cur ++ [m]) (cw + m.width) (by simp)
        refine ⟨[m] ++ ext, rest2, ?_⟩
        simp only [packLoop, if_neg h]
        rw [hr, List.append_assoc]

theorem fitsFrom_append (box_width : ℚ) :
    ∀ (l : List Measured) (acc : ℚ) (m : Measured),
      fitsFrom box_width acc (l ++ [m]) ↔
        (fitsFrom box_width acc l ∧ acc + sumWidths l + m.width ≤ box_width) := by
  intro l
  induction l with
  | nil => simp [fitsFrom, sumWidths]
  | cons a l ih =>
      intro acc m
      simp only [List.cons_append, fitsFrom]
      constructor
      · rintro ⟨h1, h2⟩
        rcases (ih (acc + a.width) m).mp h2 with ⟨h3, h4⟩
        exact ⟨⟨h1, h3⟩, by rw [sumWidths_cons]; linarith⟩
      · rintro ⟨⟨h1, h2⟩, h3⟩
        rw [sumWidths_cons] at h3
        exact ⟨h1, (ih (acc + a.width) m).mpr ⟨h2, by linarith⟩⟩

theorem lineGreedyOk_append (box_width : ℚ) (cur : List Measured) (m : Measured)
    (h : lineGreedyOk box_width cur)
    (h2 : cur ≠ [] → sumWidths cur + m.width ≤ box_width) :
    lineGreedyOk box_width (cur ++ [m]) := by
  cases cur with
  | nil => simp [lineGreedyOk, fitsFrom]
  | cons a l =>
      have hs : sumWidths (a :: l) + m.width ≤ box_width := h2 (by simp)
      rw [sumWidths_cons] at hs
      simp only [List.cons_append, lineGreedyOk] at h ⊢
      exact (fitsFrom_append box_width l a.width m).mpr ⟨h, by linarith⟩

theorem packLoop_lineGreedyOk (box_width : ℚ) :
    ∀ (ws cur : List Measured) (cw : ℚ), cw = sumWidths cur →
      lineGreedyOk box_width cur →
      ∀ line ∈ packLoop box_width ws cur cw, lineGreedyOk box_width line := by
  intro ws
  induction ws with
  | nil =>
      intro cur cw hcw hok line hline
      by_cases h : cur = [] <;> simp [packLoop, h] at hline
      · exact hline ▸ hok
  | cons m rest ih =>
      intro cur cw hcw hok line hline
      by_cases h : box_width < cw + m.width ∧ cur ≠ []
      · simp only [packLoop, if_pos h, List.mem_cons] at hline
        rcases hline with h1 | h2
        · exact h1 ▸ hok
        · refine ih [m] m.width (by simp [sumWidths]) ?_ line h2
          simp [lineGreedyOk, fitsFrom]
      · simp only [packLoop, if_neg h] at hline
        refine ih (cur ++ [m]) (cw + m.width)
          (by rw [sumWidths_append, hcw]; simp [sumWidths]) ?_ line hline
        refine lineGreedyOk_append box_width cur m hok (fun hne => ?_)
        rw [← hcw]
        by_contra hgt
        exact h ⟨by linarith, hne⟩

theorem packLoop_chain (box_width : ℚ) :
    ∀ (ws cur : List Measured) (cw : ℚ), cw = sumWidths cur →
      List.Chain' (newLineNeeded box_width) (packLoop box_width ws cur cw) := by
  intro ws
  induction ws with
  | nil =>
      intro cur cw hcw
      by_cases h : cur = [] <;> simp [packLoop, h]
  | cons m rest ih =>
      intro cur cw hcw
      by_cases h : box_width < cw + m.width ∧ cur ≠ []
      · simp only [packLoop, if_pos h]
        refine List.chain'_cons'.mpr ⟨?_, ih [m] m.width (by simp [sumWidths])⟩
        intro b hb
        obtain ⟨ext, rest2, hr⟩ :=
          packLoop_first_line box_width rest [m] m.width (by simp)
        rw [hr] at hb
        simp only [List.head?_cons, Option.mem_def, Option.some_inj] at hb
        subst hb
        intro m2 hm2
        simp only [List.cons_append, List.head?_cons, Option.mem_def,
          Option.some_inj] at hm2
        subst hm2
        rw [← hcw]
        exact h.1
      · simp only [packLoop, if_neg h]
        exact ih (cur ++ [m]) (cw + m.width)
          (by rw [sumWidths_append, hcw]; simp [sumWidths])

theorem fitsFrom_all_le (box_width : ℚ) :
    ∀ (l : List Measured) (acc : ℚ), fitsFrom box_width acc l → 0 ≤ acc →
      (∀ x ∈ l, 0 ≤ x.width) → ∀ x ∈ l, x.width ≤ box_width := by
  intro l
  induction l with
  | nil => simp
  | cons a l ih =>
      intro acc hfits hacc hpos x hx
      obtain ⟨h1, h2⟩ := hfits
      rcases List.mem_cons.mp hx with h3 | h4
      · subst h3
        linarith
      · refine ih (acc + a.width) h2 ?_ (fun z hz => hpos z (List.mem_cons_of_mem a hz)) x h4
        have := hpos a (List.mem_cons_self a l)
        linarith

/-- C2: greedy wrap-mode packing of a measured token stream.  The produced
lines (1) concatenate back to the input stream — every token appears in
exactly one line, in input order, none dropped or split; (2) are never
empty; (3) satisfy the greedy invariant — a token was appended to a line
after the first exactly because the running line width plus its width was
within the box; (4) consecutive lines witness that a new line is started
only when the next token does not fit; and (5) a token wider than the box
always occupies a line alone. -/
theorem C2_wrap_packing (box_width : ℚ) (words : List Measured)
    (_hbw : 0 < box_width)
    (hw : ∀ m ∈ words, 0 ≤ m.width) :
    (build_lines_wrapped box_width words).flatten = words ∧
    [] ∉ build_lines_wrapped box_width words ∧
    (∀ line ∈ build_lines_wrapped box_width words, lineGreedyOk box_width line) ∧
    List.Chain' (newLineNeeded box_width) (build_lines_wrapped box_width words) ∧
    (∀ line ∈ build_lines_wrapped box_width words, ∀ m ∈ line,
      box_width < m.width → line = [m]) := by
  have hflat : (build_lines_wrapped box_width words).flatten = words :=
    packLoop_flatten box_width words [] 0
  have hne : [] ∉ build_lines_wrapped box_width words :=
    packLoop_ne_nil box_width words [] 0
  have hok : ∀ line ∈ build_lines_wrapped box_width words,
      lineGreedyOk box_width line :=
    packLoop_lineGreedyOk box_width words [] 0 rfl trivial
  refine ⟨hflat, hne, hok, packLoop_chain box_width words [] 0 rfl, ?_⟩
  intro line hline m hm hwide
  have hmemw : ∀ x ∈ line, 0 ≤ x.width := by
    intro x hx
    exact hw x (hflat ▸ List.mem_flatten.mpr ⟨line, hline, hx⟩)
  cases line with
  | nil => exact absurd hline hne
  | cons a rest =>
      cases rest with
      | nil =>
          rcases List.mem_cons.mp hm with h1 | h2
          · rw [h1]
          · simp at h2
      | cons b rest2 =>
          exfalso
          have hfits : fitsFrom box_width a.width (b :: rest2) :=
            hok (a :: b :: rest2) hline
          have hble : ∀ x ∈ (b :: rest2), x.width ≤ box_width := by
            refine fitsFrom_all_le box_width (b :: rest2) a.width hfits
              (hmemw a (List.mem_cons_self a _)) ?_
            intro z hz
            exact hmemw z (List.mem_cons_of_mem a hz)
          have hafit : a.width ≤ box_width := by
            obtain ⟨h1, _⟩ := hfits
            have := hmemw b (by simp)
            linarith
          rcases List.mem_cons.mp hm with h1 | h2
          · subst h1
            linarith
          · have := hble m h2
            linarith

/-- Witness for C2: box width 5 over the measured tokens
(aa, 3), (bb, 4), (cccccc, 7), (d, 2): lines [aa], [bb], [cccccc], [d],
the 7-wide token alone on its line. -/
theorem C2_wrap_packing_witness :
    ((0 : ℚ) < 5 ∧
     (∀ m ∈ ([⟨['a', 'a'], [], 3, 1⟩, ⟨['b', 'b'], [], 4, 1⟩,
              ⟨['c', 'c', 'c', 'c', 'c', 'c'], [], 7, 1⟩,
              ⟨['d'], [], 2, 1⟩] : List Measured), 0 ≤ m.width)) ∧
    ((build_lines_wrapped 5
        [⟨['a', 'a'], [], 3, 1⟩, ⟨['b', 'b'], [], 4, 1⟩,
         ⟨['c', 'c', 'c', 'c', 'c', 'c'], [], 7, 1⟩,
         ⟨['d'], [], 2, 1⟩]).flatten =
       [⟨['a', 'a'], [], 3, 1⟩, ⟨['b', 'b'], [], 4, 1⟩,
        ⟨['c', 'c', 'c', 'c', 'c', 'c'], [], 7, 1⟩, ⟨['d'], [], 2, 1⟩] ∧
     [] ∉ build_lines_wrapped 5
        [⟨['a', 'a'], [], 3, 1⟩, ⟨['b', 'b'], [], 4, 1⟩,
         ⟨['c', 'c', 'c', 'c', 'c', 'c'], [], 7, 1⟩, ⟨['d'], [], 2, 1⟩] ∧
     (∀ line ∈ build_lines_wrapped 5
        [⟨['a', 'a'], [], 3, 1⟩, ⟨['b', 'b'], [], 4, 1⟩,
         ⟨['c', 'c', 'c', 'c', 'c', 'c'], [], 7, 1⟩, ⟨['d'], [], 2, 1⟩],
        lineGreedyOk 5 line) ∧
     List.Chain' (newLineNeeded 5)
       (build_lines_wrapped 5
         [⟨['a', 'a'], [], 3, 1⟩, ⟨['b', 'b'], [], 4, 1⟩,
          ⟨['c', 'c', 'c', 'c', 'c', 'c'], [], 7, 1⟩, ⟨['d'], [], 2, 1⟩]) ∧
     (∀ line ∈ build_lines_wrapped 5
        [⟨['a', 'a'], [], 3, 1⟩, ⟨['b', 'b'], [], 4, 1⟩,
         ⟨['c', 'c', 'c', 'c', 'c', 'c'], [], 7, 1⟩, ⟨['d'], [], 2, 1⟩],
        ∀ m ∈ line, (5 : ℚ) < m.width → line = [m])) :=
  ⟨⟨by norm_num, by
      intro m hm
      fin_cases hm <;> norm_num⟩,
   C2_wrap_packing 5 _ (by norm_num) (by
      intro m hm
      fin_cases hm <;> norm_num)⟩

end MplRichtext
